import Mathlib

set_option maxHeartbeats 1000000
set_option maxRecDepth 16384

/-!
Shallow embedding of the response-normalization logic of
`backend/main.py` (Medical Image Analysis API): the confidence extractor,
the JSON-span scanner, the line-bucket fallback extractor, the medical
keyword gate, and the request handlers around them.

Modelling conventions, stated once here:
* Python strings are `List Char` / `String` (Python indexes and slices by
  code point, as `List Char` does).
* JSON numbers are `ℚ` (the claims are about the `/100` rescaling, which
  is exact; CPython float rounding is below the spec's abstraction).
* `json.loads` is an external library call; it is a parameter
  `decode : String → Option _` of the functions that use it, applied to
  exactly the substring the code hands to `json.loads`, with `none`
  standing for a decode error (the code catches every decode exception).
* The network collaborators (Gemini, Cloudinary, MongoDB) are parameters;
  each handler also returns how many times the Gemini collaborator was
  invoked, so that "the collaborator is never invoked" is a statement
  about the returned count.
* Character classes: Python's `\s` / `str.strip` whitespace set is
  `pyIsSpace` below; `\d` and `str.lower` are modelled on the ASCII
  range, the range every input in the claims exercises.
-/

/-- Python whitespace (`str.isspace`, the `\s` class of `re` on `str`). -/
def pyIsSpace (c : Char) : Bool :=
  c == ' ' || c == '\t' || c == '\n' || c == '\r' || c == '\x0b' || c == '\x0c' ||
  (decide ('\x1c' ≤ c) && decide (c ≤ '\x1f')) || c == '\u0085' || c == '\u00a0' ||
  c == '\u1680' || (decide ('\u2000' ≤ c) && decide (c ≤ '\u200a')) ||
  c == '\u2028' || c == '\u2029' || c == '\u202f' || c == '\u205f' || c == '\u3000'

/-- Python `str.strip()`: drop leading and trailing whitespace. -/
def pyStrip (cs : List Char) : List Char :=
  ((cs.dropWhile pyIsSpace).reverse.dropWhile pyIsSpace).reverse

/-- Python `str.lower()` (ASCII case mapping). -/
def pyLower (cs : List Char) : List Char :=
  cs.map Char.toLower

/-- Python `str.split(sep)` for a one-character separator: every separator
splits, empty pieces are kept, the result is never empty. -/
def splitOnChar (sep : Char) : List Char → List (List Char)
  | [] => [[]]
  | c :: cs =>
    match splitOnChar sep cs with
    | [] => [[]]
    | a :: as => if c = sep then [] :: a :: as else (c :: a) :: as

/-- Python `needle in hay` on strings: contiguous substring test. -/
def isSubstring (needle : List Char) : List Char → Bool
  | [] => needle.isEmpty
  | c :: cs => needle.isPrefixOf (c :: cs) || isSubstring needle cs

/-- `int` of a digit group, as Python reads the captured `(\d+)`. -/
def digitsVal (ds : List Char) : Nat :=
  ds.foldl (fun n c => 10 * n + (c.toNat - 48)) 0

/-- Consume an exact literal at the front of the input. -/
def stripPre : List Char → List Char → Option (List Char)
  | [], cs => some cs
  | _ :: _, [] => none
  | p :: ps, c :: cs => if p = c then stripPre ps cs else none

/-- Leftmost search: `re.search` tries every start position from the left
and returns the first position where the at-position matcher succeeds. -/
def searchFrom (m : List Char → Option Nat) : List Char → Option Nat
  | [] => m []
  | c :: cs =>
    match m (c :: cs) with
    | some v => some v
    | none => searchFrom m cs

/-- Leftmost search stated as in the spec: scan every start position of the
text in order and take the first success. -/
def specSearch (m : List Char → Option Nat) (t : List Char) : Option Nat :=
  ((List.range (t.length + 1)).filterMap fun i => m (t.drop i)).head?

/-- The `[:\s]` class of the first and third confidence patterns. -/
def isColonSpace (c : Char) : Bool :=
  c == ':' || pyIsSpace c

/-- At-position matcher for `confidence[:\s]+(\d+)%`.  The three character
classes involved (`[:\s]`, `\d`, `%`) are pairwise disjoint, so the
backtracking greedy match is the maximal-munch match computed here. -/
def match_confidence_pct (cs : List Char) : Option Nat :=
  match stripPre "confidence".data cs with
  | none => none
  | some r0 =>
    let sp := r0.takeWhile isColonSpace
    let r1 := r0.dropWhile isColonSpace
    if sp.isEmpty then none
    else
      let ds := r1.takeWhile Char.isDigit
      let r2 := r1.dropWhile Char.isDigit
      if ds.isEmpty then none
      else
        match r2 with
        | '%' :: _ => some (digitsVal ds)
        | _ => none

/-- At-position matcher for `(\d+)%\s+confiden` (the second pattern the
code actually compiles: at least one whitespace character). -/
def match_pct_confiden (cs : List Char) : Option Nat :=
  let ds := cs.takeWhile Char.isDigit
  let r1 := cs.dropWhile Char.isDigit
  if ds.isEmpty then none
  else
    match r1 with
    | '%' :: r2 =>
      let sp := r2.takeWhile pyIsSpace
      let r3 := r2.dropWhile pyIsSpace
      if sp.isEmpty then none
      else if "confiden".data.isPrefixOf r3 then some (digitsVal ds) else none
    | _ => none

/-- At-position matcher for `(\d+)%\s*confiden` — the second pattern as the
claim words it, whitespace optional.  Kept separate so the two can be
compared. -/
def match_pct_confiden_claimed (cs : List Char) : Option Nat :=
  let ds := cs.takeWhile Char.isDigit
  let r1 := cs.dropWhile Char.isDigit
  if ds.isEmpty then none
  else
    match r1 with
    | '%' :: r2 =>
      let r3 := r2.dropWhile pyIsSpace
      if "confiden".data.isPrefixOf r3 then some (digitsVal ds) else none
    | _ => none

/-- At-position matcher for `score[:\s]+(\d+)`. -/
def match_score (cs : List Char) : Option Nat :=
  match stripPre "score".data cs with
  | none => none
  | some r0 =>
    let sp := r0.takeWhile isColonSpace
    let r1 := r0.dropWhile isColonSpace
    if sp.isEmpty then none
    else
      let ds := r1.takeWhile Char.isDigit
      if ds.isEmpty then none else some (digitsVal ds)

/-- `extract_confidence_score` of `backend/main.py`: try the three
patterns on the lowercased text in order, divide the captured integer by
100, default to 0.75. -/
def extract_confidence_score (text : String) : ℚ :=
  match searchFrom match_confidence_pct (pyLower text.data) with
  | some n => (n : ℚ) / 100
  | none =>
    match searchFrom match_pct_confiden (pyLower text.data) with
    | some n => (n : ℚ) / 100
    | none =>
      match searchFrom match_score (pyLower text.data) with
      | some n => (n : ℚ) / 100
      | none => 0.75

/-- The confidence extractor as the spec describes it (with the corrected
second pattern `(\d+)%\s+confiden`), using the spec-side leftmost search. -/
def spec_confidence_extractor (text : String) : ℚ :=
  match specSearch match_confidence_pct (pyLower text.data) with
  | some n => (n : ℚ) / 100
  | none =>
    match specSearch match_pct_confiden (pyLower text.data) with
    | some n => (n : ℚ) / 100
    | none =>
      match specSearch match_score (pyLower text.data) with
      | some n => (n : ℚ) / 100
      | none => 0.75

/-- The confidence extractor exactly as claim C4 words it: second pattern
`(\d+)%\s*confiden`, whitespace optional. -/
def claimed_confidence_extractor (text : String) : ℚ :=
  match specSearch match_confidence_pct (pyLower text.data) with
  | some n => (n : ℚ) / 100
  | none =>
    match specSearch match_pct_confiden_claimed (pyLower text.data) with
    | some n => (n : ℚ) / 100
    | none =>
      match specSearch match_score (pyLower text.data) with
      | some n => (n : ℚ) / 100
      | none => 0.75

/-- At-position match of the DOTALL pattern used for JSON extraction,
`\x7b.*\x7d`: the input must start with a brace, and the greedy `.*`
extends to the last closing brace of the rest. -/
def braceMatchAt : List Char → Option (List Char)
  | [] => none
  | c :: cs =>
    if c = '\x7b' then
      match cs.reverse.dropWhile (fun d => !(d == '\x7d')) with
      | [] => none
      | d :: ds => some ('\x7b' :: (d :: ds).reverse)
    else none

/-- `re.search(r'\x7b.*\x7d', text, re.DOTALL)`: leftmost start position,
greedy extent. -/
def braceSearch : List Char → Option (List Char)
  | [] => none
  | c :: cs =>
    match braceMatchAt (c :: cs) with
    | some r => some r
    | none => braceSearch cs

/-- The fields of the decoded JSON object that `analyze_medical_image`
reads, each `none` when the key is absent (`dict.get` takes its default). -/
structure ParsedData where
  image_type : Option String
  diagnosis_english : Option String
  diagnosis_arabic : Option String
  confidence_score : Option ℚ
  findings : Option (List String)
  recommendations : Option String
deriving DecidableEq

/-- `parse_json_response` of `backend/main.py`: regex-search the text for
the brace span and hand exactly that span to `json.loads` (the `decode`
parameter); any failure yields `none` (the code returns `None`). -/
def parse_json_response (decode : String → Option ParsedData) (text : String) :
    Option ParsedData :=
  match braceSearch text.data with
  | some span => decode (String.mk span)
  | none => none

/-- One Arabic code point in U+0600–U+06FF, the test the fallback loop
applies per line. -/
def hasArabicChar (cs : List Char) : Bool :=
  cs.any fun c => decide ('\u0600' ≤ c) && decide (c ≤ '\u06ff')

/-- The keyword list the fallback loop uses to copy a line into findings. -/
def finding_keywords : List String :=
  ["finding", "observed", "shows", "indicates"]

def containsFindingKeyword (line : List Char) : Bool :=
  finding_keywords.any fun kw => isSubstring kw.data (pyLower line)

/-- The loop state of the unstructured fallback of `analyze_medical_image`:
the `arabic_started` latch and the three line buckets. -/
structure FallbackState where
  arabic_started : Bool
  diagnosis_en : List String
  diagnosis_ar : List String
  findings : List String
deriving DecidableEq

/-- One iteration of the fallback loop: strip the line, skip it when blank,
append an Arabic-bearing line to the Arabic bucket (setting the latch),
else append it to the English bucket only while the latch is unset and the
line does not open a brace, also copying it to findings when it carries a
finding keyword. -/
def processLine (st : FallbackState) (raw : List Char) : FallbackState :=
  let line := pyStrip raw
  if line.isEmpty then st
  else if hasArabicChar line then
    { st with arabic_started := true,
              diagnosis_ar := st.diagnosis_ar ++ [String.mk line] }
  else if !st.arabic_started && !line.isEmpty && !(line.head? == some '\x7b') then
    { st with
      diagnosis_en := st.diagnosis_en ++ [String.mk line],
      findings := if containsFindingKeyword line then st.findings ++ [String.mk line]
                  else st.findings }
  else st

/-- The buckets the fallback path accumulates over `text.split('\n')`. -/
def fallback_state (text : String) : FallbackState :=
  (splitOnChar '\n' text.data).foldl processLine ⟨false, [], [], []⟩

/-- The analysis record `analyze_medical_image` returns (the keys of the
dict it builds; `DiagnosisResponse` of the API). -/
structure DiagnosisResult where
  image_type : String
  diagnosis_english : String
  diagnosis_arabic : String
  confidence_score : ℚ
  findings : List String
  recommendations : String
deriving DecidableEq

/-- The fixed Arabic sentence the fallback path substitutes when the
Arabic bucket stays empty. -/
def arabic_fallback_placeholder : String :=
  "يرجى استشارة أخصائي طبي للحصول على تشخيص دقيق"

/-- The fallback branch of `analyze_medical_image` (no decodable JSON):
regex confidence, bucketed lines, literal defaults for empty buckets. -/
def fallback_result (text : String) : DiagnosisResult :=
  { image_type := "Medical Image"
    diagnosis_english :=
      if (fallback_state text).diagnosis_en ≠ [] then
        String.intercalate " " (fallback_state text).diagnosis_en
      else String.mk (text.data.take 500)
    diagnosis_arabic :=
      if (fallback_state text).diagnosis_ar ≠ [] then
        String.intercalate " " (fallback_state text).diagnosis_ar
      else arabic_fallback_placeholder
    confidence_score := extract_confidence_score text
    findings :=
      if (fallback_state text).findings ≠ [] then (fallback_state text).findings
      else ["Analysis completed"]
    recommendations :=
      "Please consult with a qualified healthcare professional for proper diagnosis and treatment." }

/-- The structured branch of `analyze_medical_image`: `dict.get` defaults
for absent keys, and the `> 1` rescale of the confidence value. -/
def structured_result (p : ParsedData) : DiagnosisResult :=
  { image_type := p.image_type.getD "Medical Image"
    diagnosis_english := p.diagnosis_english.getD "Analysis completed"
    diagnosis_arabic := p.diagnosis_arabic.getD "تم التحليل"
    confidence_score :=
      if p.confidence_score.getD 75 > 1 then p.confidence_score.getD 75 / 100
      else p.confidence_score.getD 75
    findings := p.findings.getD ["Image analyzed"]
    recommendations := p.recommendations.getD "Consult a healthcare professional" }

/-- `analyze_medical_image` after the collaborator reply `text` is in hand:
structured path when the brace span decodes, fallback path otherwise. -/
def analyze_medical_image (decode : String → Option ParsedData) (text : String) :
    DiagnosisResult :=
  match parse_json_response decode text with
  | some p => structured_result p
  | none => fallback_result text

/-- The fixed bilingual keyword list of `is_medical_question`. -/
def medical_keywords : List String := [
  "pain", "hurt", "symptom", "fever", "headache", "cough", "cold", "flu",
  "virus", "infection", "disease", "illness", "sick", "health", "medical",
  "doctor", "hospital", "clinic", "medicine", "drug", "pill", "tablet",
  "treatment", "therapy", "diagnosis", "prognosis", "prescription",
  "heart", "lung", "liver", "kidney", "stomach", "brain", "blood",
  "bone", "muscle", "nerve", "skin", "eye", "ear", "nose", "throat",
  "chest", "back", "arm", "leg", "head", "foot", "hand",
  "cardiology", "neurology", "pediatrics", "surgery", "dentist",
  "psychology", "psychiatry", "dermatology", "orthopedics",
  "ألم", "مرض", "علاج", "طبيب", "مستشفى", "دواء", "صحة", "عرض",
  "حمى", "سعال", "صداع", "قلب", "رئة", "كبد", "كلية", "معدة"]

/-- `is_medical_question` of `backend/main.py`: the lowercased question
contains some keyword as a substring. -/
def is_medical_question (question : String) : Bool :=
  medical_keywords.any fun kw => isSubstring kw.data (pyLower question.data)

/-- The reply record of the chat path (`ChatResponse` fields the generator
fills). -/
structure ChatReply where
  response_english : String
  response_arabic : String
  is_medical : Bool
  confidence_score : ℚ
deriving DecidableEq

/-- The fixed bilingual refusal `generate_medical_chat_response` returns
when the keyword gate rejects the message. -/
def refusal_reply : ChatReply where
  response_english := "I apologize, but I\x27m designed specifically to answer medical and health-related questions only. Please ask me about symptoms, conditions, treatments, or general health information."
  response_arabic := "أعتذر، ولكنني مصمم خصيصًا للإجابة على الأسئلة الطبية والمتعلقة بالصحة فقط. يرجى سؤالي عن الأعراض، الحالات، العلاجات، أو المعلومات الصحية العامة."
  is_medical := false
  confidence_score := 100

/-- `generate_medical_chat_response`: the keyword gate, then one
collaborator call (`llm`), then the brace-span JSON parse of the reply
(`decodeChat` standing for `json.loads` plus field reading), with the
literal fallback dict when parsing fails.  The second component counts
collaborator invocations. -/
def generate_medical_chat_response (llm : String → String)
    (decodeChat : String → Option ChatReply) (user_message : String) :
    ChatReply × Nat :=
  if !(is_medical_question user_message) then (refusal_reply, 0)
  else
    match braceSearch (llm user_message).data with
    | some span =>
      match decodeChat (String.mk span) with
      | some parsed => (parsed, 1)
      | none => (
        { response_english := "I\x27ve analyzed your medical question. " ++
            String.mk ((llm user_message).data.take 500) ++
            "\n\n⚠️ Disclaimer: I am an AI assistant. Please consult with a qualified healthcare professional for medical advice."
          response_arabic := "لقد قمت بتحليل سؤالك الطبي. " ++
            "يرجى استشارة أخصائي طبي مؤهل للحصول على المشورة الطبية المناسبة." ++
            "\n\n⚠️ تنبيه: أنا مساعد ذكي. يرجى استشارة أخصائي طبي مؤهل للحصول على المشورة الطبية."
          is_medical := true
          confidence_score := 75 }, 1)
    | none => (
      { response_english := "I\x27ve analyzed your medical question. " ++
          String.mk ((llm user_message).data.take 500) ++
          "\n\n⚠️ Disclaimer: I am an AI assistant. Please consult with a qualified healthcare professional for medical advice."
        response_arabic := "لقد قمت بتحليل سؤالك الطبي. " ++
          "يرجى استشارة أخصائي طبي مؤهل للحصول على المشورة الطبية المناسبة." ++
          "\n\n⚠️ تنبيه: أنا مساعد ذكي. يرجى استشارة أخصائي طبي مؤهل للحصول على المشورة الطبية."
        is_medical := true
        confidence_score := 75 }, 1)

deriving instance DecidableEq for Except

/-- `fastapi.HTTPException` as its status code plus detail string. -/
structure HTTPException where
  status_code : Nat
  detail : String
deriving DecidableEq

/-- `str(e)` of a `starlette` `HTTPException`: `f"{status_code}: {detail}"`. -/
def strHTTPException (e : HTTPException) : String :=
  toString e.status_code ++ ": " ++ e.detail

/-- The extension whitelist both upload endpoints declare. -/
def allowed_extensions : List String :=
  ["jpg", "jpeg", "png", "gif", "bmp", "tiff", "webp"]

/-- `file.filename.split('.')[-1].lower()`. -/
def file_extension (filename : String) : String :=
  String.mk (pyLower ((splitOnChar '.' filename.data).getLastD []))

/-- The detail of the invalid-extension rejection, with the joined list. -/
def invalid_type_detail : String :=
  "Invalid file type. Allowed types: " ++ String.intercalate ", " allowed_extensions

/-- The `/analyze` handler after the multipart upload is in hand:
extension gate, 10MB gate, then one collaborator call analysed by
`analyze_medical_image`.  `reply` is the text the collaborator returns
when invoked; the second component counts collaborator invocations.
(`PIL.Image.open` is not modelled: the claims about this handler concern
the validation gates, which run before it.) -/
def analyze_image (decode : String → Option ParsedData) (reply : String)
    (filename : String) (size : Nat) :
    Except HTTPException DiagnosisResult × Nat :=
  if file_extension filename ∉ allowed_extensions then
    (Except.error ⟨400, invalid_type_detail⟩, 0)
  else if size > 10 * 1024 * 1024 then
    (Except.error ⟨400, "File size exceeds 10MB limit"⟩, 0)
  else
    (Except.ok (analyze_medical_image decode reply), 1)

/-- The stored record `/analyze-and-store` returns (`created_at`, produced
by `datetime.utcnow`, is outside the model). -/
structure StoredDiagnosisResult where
  id : String
  patient_id : Option String
  image_url : String
  result : DiagnosisResult
deriving DecidableEq

/-- The `/analyze-and-store` handler: the same two validation gates, then
analysis, then the Cloudinary upload (`upload`: the returned URL, or
`none` when the upload raises with cause `uploadErr`), then the MongoDB
insert (`save`: the new id, or `none` when it raises with cause
`saveErr`). -/
def analyze_and_store_image (decode : String → Option ParsedData) (reply : String)
    (upload : Option String) (uploadErr : String)
    (save : Option String) (saveErr : String)
    (filename : String) (size : Nat) (patient_id : Option String) :
    Except HTTPException StoredDiagnosisResult × Nat :=
  if file_extension filename ∉ allowed_extensions then
    (Except.error ⟨400, invalid_type_detail⟩, 0)
  else if size > 10 * 1024 * 1024 then
    (Except.error ⟨400, "File size exceeds 10MB limit"⟩, 0)
  else
    match upload with
    | none => (Except.error ⟨500, "Error uploading to Cloudinary: " ++ uploadErr⟩, 1)
    | some url =>
      match save with
      | none => (Except.error ⟨500, "Error saving to MongoDB: " ++ saveErr⟩, 1)
      | some rid =>
        (Except.ok ⟨rid, patient_id, url, analyze_medical_image decode reply⟩, 1)

/-- A stored medical record as the read endpoint returns it. -/
structure StoredRecord where
  id : String
deriving DecidableEq

/-- The `GET /records/{record_id}` handler.  `find_one` is the
database lookup result.  The whole body sits in one
`try ... except Exception` with no `except HTTPException: raise` clause,
so the `HTTPException(404)` raised for a missing record is itself caught
and re-raised as a 500 whose detail embeds `str(e)`. -/
def get_record_by_id (find_one : Option StoredRecord) :
    Except HTTPException StoredRecord :=
  let body : Except HTTPException StoredRecord :=
    match find_one with
    | none => Except.error ⟨404, "Record not found"⟩
    | some record => Except.ok record
  match body with
  | Except.ok record => Except.ok record
  | Except.error e => Except.error ⟨500, "Error fetching record: " ++ strHTTPException e⟩

/-- The success body of the delete endpoint. -/
structure DeleteRecordReply where
  message : String
  deleted_id : String
deriving DecidableEq

/-- The `DELETE /records/{record_id}` handler, with the same
catch-all wrapping as the read endpoint: `deleted_count` is what the
database delete reports. -/
def delete_record (deleted_count : Nat) (record_id : String) :
    Except HTTPException DeleteRecordReply :=
  let body : Except HTTPException DeleteRecordReply :=
    if deleted_count = 0 then Except.error ⟨404, "Record not found"⟩
    else Except.ok ⟨"Record deleted successfully", record_id⟩
  match body with
  | Except.ok r => Except.ok r
  | Except.error e => Except.error ⟨500, "Error deleting record: " ++ strHTTPException e⟩

/-- The extension rule as the claim words it: the substring after the last
dot (the whole name when no dot occurs), lowercased. -/
def specAfterLastSep (sep : Char) : List Char → List Char
  | [] => []
  | c :: cs =>
    if sep ∈ cs then specAfterLastSep sep cs
    else if c = sep then cs
    else c :: cs

/-- The lowercased after-last-dot extension, spec-side counterpart of
`file_extension`. -/
def spec_extension (filename : String) : String :=
  String.mk (pyLower (specAfterLastSep '.' filename.data))

/-- Whether no line of the reply carries an Arabic code point once
stripped (the condition under which the fallback Arabic bucket stays
empty). -/
def noArabicLine (text : String) : Bool :=
  (splitOnChar '\n' text.data).all fun l => !(hasArabicChar (pyStrip l))

/-- A decode table standing for `json.loads` on the one structured reply
the confidence witness uses. -/
def decode_conf_150 : String → Option ParsedData := fun s =>
  if s = "\x7b\"confidence_score\": 150\x7d" then
    some ⟨none, none, none, some 150, none, none⟩
  else none

/-- A decode table standing for `json.loads` on a structured reply whose
confidence value is negative with magnitude above one. -/
def decode_conf_neg : String → Option ParsedData := fun s =>
  if s = "\x7b\"confidence_score\": -150\x7d" then
    some ⟨none, none, none, some (-150), none, none⟩
  else none

/-- A decode table standing for `json.loads` on a structured reply whose
findings key holds an explicitly empty array. -/
def decode_empty_findings : String → Option ParsedData := fun s =>
  if s = "\x7b\"findings\": []\x7d" then
    some ⟨none, none, none, none, some [], none⟩
  else none

/-! ## Lemmas about the scanners -/

/-- The recursive leftmost scan equals the position-indexed leftmost scan. -/
theorem searchFrom_eq_specSearch (m : List Char → Option Nat) (t : List Char) :
    searchFrom m t = specSearch m t := by
  induction t with
  | nil =>
    unfold searchFrom specSearch
    rw [List.length_nil, List.range_succ_eq_map, List.range_zero, List.map_nil,
      List.filterMap_cons]
    simp only [List.drop_zero]
    cases h : m [] with
    | some v => rfl
    | none => rfl
  | cons c cs ih =>
    unfold searchFrom specSearch
    rw [List.length_cons, List.range_succ_eq_map, List.filterMap_cons]
    have hcomp : ((fun i => m (List.drop i (c :: cs))) ∘ Nat.succ) =
        fun i => m (List.drop i cs) := by
      funext i
      simp [Function.comp, List.drop_succ_cons]
    cases h : m (c :: cs) with
    | some v =>
      simp only [List.drop_zero, h, List.head?_cons]
    | none =>
      simp only [List.drop_zero, h, List.filterMap_map, hcomp]
      rw [ih]
      unfold specSearch
      rfl

/-- The head of a non-trivial `dropWhile` residue fails the predicate. -/
theorem dropWhile_head_false {α : Type} (p : α → Bool) (l : List α) (b : α) (t : List α)
    (h : l.dropWhile p = b :: t) : p b = false := by
  induction l with
  | nil => simp [List.dropWhile] at h
  | cons a l ih =>
    by_cases hpa : p a = true
    · rw [List.dropWhile_cons, if_pos hpa] at h
      exact ih h
    · rw [List.dropWhile_cons, if_neg hpa] at h
      injection h with h1 h2
      subst h1
      simpa using hpa

/-- `dropWhile` skips a prefix whose members all satisfy the predicate. -/
theorem dropWhile_append_of_all {α : Type} (p : α → Bool) (l₁ l₂ : List α)
    (h : ∀ x ∈ l₁, p x = true) : (l₁ ++ l₂).dropWhile p = l₂.dropWhile p := by
  induction l₁ with
  | nil => simp
  | cons a l ih =>
    rw [List.cons_append, List.dropWhile_cons, if_pos (h a (by simp))]
    exact ih fun x hx => h x (by simp [hx])

/-- Splitting the reversed tail at its first closing brace recovers the
last closing brace of the tail. -/
theorem rev_dropWhile_decomp (cs : List Char) (d : Char) (ds : List Char)
    (h : cs.reverse.dropWhile (fun x => !(x == '\x7d')) = d :: ds) :
    ∃ mid post, cs = mid ++ '\x7d' :: post ∧ '\x7d' ∉ post ∧
      (d :: ds).reverse = mid ++ ['\x7d'] := by
  have hd : (fun x : Char => !(x == '\x7d')) d = false :=
    dropWhile_head_false (fun x : Char => !(x == '\x7d')) cs.reverse d ds h
  have hdeq : d = '\x7d' := by simpa using hd
  subst hdeq
  have hsplit := List.takeWhile_append_dropWhile (fun x : Char => !(x == '\x7d')) cs.reverse
  rw [h] at hsplit
  refine ⟨ds.reverse, (cs.reverse.takeWhile fun x => !(x == '\x7d')).reverse, ?_, ?_, by simp⟩
  · have h2 := congrArg List.reverse hsplit
    simp only [List.reverse_append, List.reverse_reverse, List.reverse_cons] at h2
    conv_lhs => rw [← h2]
    simp
  · intro hmem
    rw [List.mem_reverse] at hmem
    have := List.mem_takeWhile_imp hmem
    simp at this

/-- Conversely, a decomposition at the last closing brace determines the
`dropWhile` residue. -/
theorem rev_dropWhile_of_decomp (mid post : List Char) (h : '\x7d' ∉ post) :
    ((mid ++ '\x7d' :: post).reverse.dropWhile fun x => !(x == '\x7d')) =
      '\x7d' :: mid.reverse := by
  rw [List.reverse_append, List.reverse_cons, List.append_assoc]
  rw [dropWhile_append_of_all _ _ _ ?_]
  · rw [List.singleton_append, List.dropWhile_cons]
    simp
  · intro x hx
    rw [List.mem_reverse] at hx
    simp only [Bool.not_eq_true', beq_eq_false_iff_ne, ne_eq]
    intro he
    exact h (he ▸ hx)

/-- `braceSearch` finds exactly the span from the first opening brace to
the last closing brace, when the latter follows the former. -/
theorem braceSearch_some_iff (l s : List Char) :
    braceSearch l = some s ↔
      ∃ pre mid post, l = pre ++ '\x7b' :: (mid ++ '\x7d' :: post) ∧
        '\x7b' ∉ pre ∧ '\x7d' ∉ post ∧ s = '\x7b' :: (mid ++ ['\x7d']) := by
  induction l with
  | nil =>
    constructor
    · intro h
      simp [braceSearch] at h
    · rintro ⟨pre, mid, post, h, -, -, -⟩
      exact absurd h (by simp)
  | cons c cs ih =>
    constructor
    · intro h
      unfold braceSearch at h
      cases hm : braceMatchAt (c :: cs) with
      | some r =>
        rw [hm] at h
        injection h with h
        by_cases hc : c = '\x7b'
        · simp only [braceMatchAt, if_pos hc] at hm
          cases hdr : cs.reverse.dropWhile fun d => !(d == '\x7d') with
          | nil =>
            rw [hdr] at hm
            exact absurd hm (by simp)
          | cons d ds =>
            rw [hdr] at hm
            injection hm with hm
            obtain ⟨mid, post, hcs, hpost, hrev⟩ := rev_dropWhile_decomp cs d ds hdr
            refine ⟨[], mid, post, ?_, by simp, hpost, ?_⟩
            · rw [List.nil_append, hc, hcs]
            · rw [← h, ← hm, hrev]
        · simp only [braceMatchAt, if_neg hc] at hm
          exact Option.noConfusion hm
      | none =>
        rw [hm] at h
        obtain ⟨pre, mid, post, hcs, hpre, hpost, hs⟩ := ih.mp h
        have hc : c ≠ '\x7b' := by
          intro hc
          simp only [braceMatchAt, if_pos hc] at hm
          cases hdr : cs.reverse.dropWhile fun d => !(d == '\x7d') with
          | nil =>
            rw [List.dropWhile_eq_nil_iff] at hdr
            have hin : '\x7d' ∈ cs := by
              rw [hcs]
              simp
            have := hdr _ (List.mem_reverse.mpr hin)
            simp at this
          | cons d ds =>
            rw [hdr] at hm
            simp at hm
        refine ⟨c :: pre, mid, post, by rw [List.cons_append, hcs], ?_, hpost, hs⟩
        intro hmem
        rcases List.mem_cons.mp hmem with h1 | h2
        · exact hc h1.symm
        · exact hpre h2
    · rintro ⟨pre, mid, post, hl, hpre, hpost, hs⟩
      cases pre with
      | nil =>
        rw [List.nil_append] at hl
        injection hl with h1 h2
        unfold braceSearch
        have hmat : braceMatchAt (c :: cs) = some ('\x7b' :: (mid ++ ['\x7d'])) := by
          simp only [braceMatchAt, if_pos h1]
          rw [h2, rev_dropWhile_of_decomp mid post hpost]
          simp
        rw [hmat, hs]
      | cons a pre' =>
        rw [List.cons_append] at hl
        injection hl with h1 h2
        have hc : c ≠ '\x7b' := by
          rw [h1]
          intro ha
          exact hpre (by simp [ha])
        unfold braceSearch
        have hmat : braceMatchAt (c :: cs) = none := by
          simp only [braceMatchAt, if_neg hc]
        rw [hmat]
        exact ih.mpr ⟨pre', mid, post, h2, fun hx => hpre (by simp [hx]), hpost, hs⟩

/-! ## Lemmas about the extension split -/

theorem splitOnChar_ne_nil (sep : Char) (cs : List Char) : splitOnChar sep cs ≠ [] := by
  cases cs with
  | nil => simp [splitOnChar]
  | cons c cs =>
    cases h : splitOnChar sep cs with
    | nil =>
      have heq : splitOnChar sep (c :: cs) = [[]] := by
        simp only [splitOnChar, h]
      simp [heq]
    | cons a as =>
      have heq : splitOnChar sep (c :: cs) =
          if c = sep then [] :: a :: as else (c :: a) :: as := by
        simp only [splitOnChar, h]
      rw [heq]
      split <;> simp

theorem splitOnChar_of_not_mem (sep : Char) (cs : List Char) (h : sep ∉ cs) :
    splitOnChar sep cs = [cs] := by
  induction cs with
  | nil => rfl
  | cons c cs ih =>
    have hc : ¬ c = sep := fun e => h (by simp [e])
    have hcs : sep ∉ cs := fun m => h (by simp [m])
    simp only [splitOnChar, ih hcs]
    rw [if_neg hc]

theorem splitOnChar_length_of_mem (sep : Char) (cs : List Char) (h : sep ∈ cs) :
    2 ≤ (splitOnChar sep cs).length := by
  induction cs with
  | nil => simp at h
  | cons c cs ih =>
    cases hs : splitOnChar sep cs with
    | nil => exact absurd hs (splitOnChar_ne_nil sep cs)
    | cons a as =>
      have heq : splitOnChar sep (c :: cs) =
          if c = sep then [] :: a :: as else (c :: a) :: as := by
        simp only [splitOnChar, hs]
      rw [heq]
      by_cases hc : c = sep
      · rw [if_pos hc]
        simp
      · rw [if_neg hc]
        have hm : sep ∈ cs := by
          rcases List.mem_cons.mp h with h1 | h2
          · exact absurd h1.symm hc
          · exact h2
        have h2 := ih hm
        rw [hs] at h2
        simpa using h2

theorem getLastD_of_ne_nil {α : Type} (a : α) (as : List α) (d e : α) (h : as ≠ []) :
    (a :: as).getLastD d = as.getLastD e := by
  cases as with
  | nil => exact absurd rfl h
  | cons b bs =>
    rw [List.getLastD_cons, List.getLastD_cons, List.getLastD_cons]

/-- The last piece of the split is the suffix after the last separator. -/
theorem splitOnChar_getLastD (sep : Char) (cs : List Char) :
    (splitOnChar sep cs).getLastD [] = specAfterLastSep sep cs := by
  induction cs with
  | nil => rfl
  | cons c cs ih =>
    cases hs : splitOnChar sep cs with
    | nil => exact absurd hs (splitOnChar_ne_nil sep cs)
    | cons a as =>
      have heq : splitOnChar sep (c :: cs) =
          if c = sep then [] :: a :: as else (c :: a) :: as := by
        simp only [splitOnChar, hs]
      rw [heq]
      simp only [specAfterLastSep]
      rw [hs] at ih
      by_cases hm : sep ∈ cs
      · rw [if_pos hm]
        have hlen := splitOnChar_length_of_mem sep cs hm
        rw [hs] at hlen
        have has : as ≠ [] := by
          intro he
          rw [he] at hlen
          simp at hlen
        by_cases hc : c = sep
        · rw [if_pos hc, ← ih]
          exact getLastD_of_ne_nil [] (a :: as) [] a (by simp)
        · rw [if_neg hc, ← ih]
          rw [getLastD_of_ne_nil (c :: a) as [] a has]
          exact (getLastD_of_ne_nil a as [] a has).symm
      · rw [if_neg hm]
        have h2 := splitOnChar_of_not_mem sep cs hm
        rw [h2] at hs
        injection hs with h3 h4
        subst h3
        subst h4
        by_cases hc : c = sep
        · rw [if_pos hc, if_pos hc]
          rfl
        · rw [if_neg hc, if_neg hc]
          rfl

/-- The two extension computations agree on every filename. -/
theorem file_extension_eq_spec (filename : String) :
    file_extension filename = spec_extension filename := by
  unfold file_extension spec_extension
  rw [splitOnChar_getLastD]

/-- A name with no dot is its own (whole-name) extension field. -/
theorem specAfterLastSep_of_not_mem (sep : Char) (cs : List Char) (h : sep ∉ cs) :
    specAfterLastSep sep cs = cs := by
  cases cs with
  | nil => rfl
  | cons c cs =>
    have hc : ¬ c = sep := fun e => h (by simp [e])
    have hcs : sep ∉ cs := fun m => h (by simp [m])
    simp only [specAfterLastSep]
    rw [if_neg hcs, if_neg hc]

/-! ## Lemmas about the fallback loop -/

theorem processLine_of_started (st : FallbackState) (raw : List Char)
    (h : st.arabic_started = true) :
    (processLine st raw).arabic_started = true ∧
    (processLine st raw).diagnosis_en = st.diagnosis_en := by
  simp only [processLine]
  split_ifs with h1 h2 h3 <;> simp_all

theorem fold_of_started (lines : List (List Char)) : ∀ st : FallbackState,
    st.arabic_started = true →
    (lines.foldl processLine st).arabic_started = true ∧
    (lines.foldl processLine st).diagnosis_en = st.diagnosis_en := by
  induction lines with
  | nil => exact fun st h => ⟨h, rfl⟩
  | cons l ls ih =>
    intro st h
    rw [List.foldl_cons]
    obtain ⟨h1, h2⟩ := processLine_of_started st l h
    obtain ⟨h3, h4⟩ := ih _ h1
    exact ⟨h3, h4.trans h2⟩

theorem processLine_ar_mem (st : FallbackState) (raw : List Char) :
    ∀ s ∈ (processLine st raw).diagnosis_ar,
      s ∈ st.diagnosis_ar ∨ hasArabicChar s.data = true := by
  intro s hs
  simp only [processLine] at hs
  split_ifs at hs with h1 h2 h3 h4
  · exact Or.inl hs
  · simp only [List.mem_append, List.mem_singleton] at hs
    rcases hs with hs | hs
    · exact Or.inl hs
    · subst hs
      exact Or.inr h2
  · exact Or.inl hs
  · exact Or.inl hs
  · exact Or.inl hs

theorem fold_ar_mem (lines : List (List Char)) : ∀ st : FallbackState,
    ∀ s ∈ (lines.foldl processLine st).diagnosis_ar,
      s ∈ st.diagnosis_ar ∨ hasArabicChar s.data = true := by
  induction lines with
  | nil => exact fun st s hs => Or.inl hs
  | cons l ls ih =>
    intro st s hs
    rw [List.foldl_cons] at hs
    rcases ih _ s hs with hmem | har
    · exact processLine_ar_mem st l s hmem
    · exact Or.inr har

theorem processLine_ar_of_no_arabic (st : FallbackState) (raw : List Char)
    (h : hasArabicChar (pyStrip raw) = false) :
    (processLine st raw).diagnosis_ar = st.diagnosis_ar := by
  simp only [processLine]
  split_ifs with h1 h2 h3 <;> simp_all

theorem fold_ar_of_no_arabic (lines : List (List Char)) : ∀ st : FallbackState,
    (∀ l ∈ lines, hasArabicChar (pyStrip l) = false) →
    (lines.foldl processLine st).diagnosis_ar = st.diagnosis_ar := by
  induction lines with
  | nil => exact fun st _ => rfl
  | cons l ls ih =>
    intro st h
    rw [List.foldl_cons]
    rw [ih _ fun x hx => h x (by simp [hx])]
    exact processLine_ar_of_no_arabic st l (h l (by simp))

theorem processLine_ar_mono (st : FallbackState) (raw : List Char)
    (h : st.diagnosis_ar ≠ []) : (processLine st raw).diagnosis_ar ≠ [] := by
  simp only [processLine]
  split_ifs with h1 h2 h3 <;> simp_all

theorem fold_ar_mono (lines : List (List Char)) : ∀ st : FallbackState,
    st.diagnosis_ar ≠ [] → (lines.foldl processLine st).diagnosis_ar ≠ [] := by
  induction lines with
  | nil => exact fun st h => h
  | cons l ls ih =>
    intro st h
    rw [List.foldl_cons]
    exact ih _ (processLine_ar_mono st l h)

theorem processLine_ar_of_arabic (st : FallbackState) (raw : List Char)
    (h : hasArabicChar (pyStrip raw) = true) :
    (processLine st raw).diagnosis_ar ≠ [] := by
  have hne : (pyStrip raw).isEmpty = false := by
    cases he : pyStrip raw with
    | nil => rw [he] at h; simp [hasArabicChar] at h
    | cons a l => rfl
  simp only [processLine]
  split_ifs <;> simp_all

theorem fold_ar_of_arabic (lines : List (List Char)) : ∀ st : FallbackState,
    (∃ l ∈ lines, hasArabicChar (pyStrip l) = true) →
    (lines.foldl processLine st).diagnosis_ar ≠ [] := by
  induction lines with
  | nil => rintro st ⟨l, hl, -⟩; simp at hl
  | cons l ls ih =>
    rintro st ⟨x, hx, har⟩
    rw [List.foldl_cons]
    rcases List.mem_cons.mp hx with h1 | h2
    · subst h1
      exact fold_ar_mono ls _ (processLine_ar_of_arabic st x har)
    · exact ih _ ⟨x, h2, har⟩

/-! ## The claims -/

/-- C1, counterexample: in the fallback path of `analyze_medical_image`,
after the Arabic-bearing line the pure-Latin line "hello world" is NOT
appended to the Arabic bucket (the code appends only Arabic-bearing lines
there; non-Arabic lines after the latch are dropped), refuting the claim
that every subsequent non-blank line lands in the Arabic bucket. -/
theorem claim1_counterexample :
    (fallback_state "سلام\nhello world").diagnosis_ar = ["سلام"] ∧
    (fallback_state "سلام\nhello world").diagnosis_en = [] ∧
    ¬ ("hello world" ∈ (fallback_state "سلام\nhello world").diagnosis_ar) := by
  refine ⟨by decide, by decide, by decide⟩

/-- C1, amended: once the latch `arabic_started` is set, the remainder of
the fallback loop never appends to the English bucket, keeps the latch
set, and only appends Arabic-bearing lines to the Arabic bucket —
subsequent pure-Latin lines go to neither bucket. -/
theorem claim1_arabic_latch (st : FallbackState) (lines : List (List Char))
    (h : st.arabic_started = true) :
    (lines.foldl processLine st).diagnosis_en = st.diagnosis_en ∧
    (lines.foldl processLine st).arabic_started = true ∧
    ∀ s ∈ (lines.foldl processLine st).diagnosis_ar,
      s ∈ st.diagnosis_ar ∨ hasArabicChar s.data = true := by
  obtain ⟨h1, h2⟩ := fold_of_started lines st h
  exact ⟨h2, h1, fold_ar_mem lines st⟩

/-- C1, witness: with the latch already set, folding one pure-Latin line
leaves the English bucket empty. -/
theorem claim1_witness :
    ((["hello world".data]).foldl processLine ⟨true, [], [], []⟩).diagnosis_en = [] :=
  (claim1_arabic_latch ⟨true, [], [], []⟩ ["hello world".data] rfl).1

/-- C2: on the fallback path, the Arabic diagnosis field is either the
fixed placeholder (exactly when no stripped line of the reply carries an
Arabic code point) or the space-join of the Arabic bucket, every entry of
which carries an Arabic code point in U+0600–U+06FF. -/
theorem claim2_arabic_purity (text : String) :
    ((fallback_state text).diagnosis_ar = [] ∧ noArabicLine text = true ∧
      (fallback_result text).diagnosis_arabic = arabic_fallback_placeholder) ∨
    ((fallback_state text).diagnosis_ar ≠ [] ∧
      (∀ s ∈ (fallback_state text).diagnosis_ar, hasArabicChar s.data = true) ∧
      (fallback_result text).diagnosis_arabic =
        String.intercalate " " (fallback_state text).diagnosis_ar) := by
  have hfield : (fallback_result text).diagnosis_arabic =
      if (fallback_state text).diagnosis_ar ≠ [] then
        String.intercalate " " (fallback_state text).diagnosis_ar
      else arabic_fallback_placeholder := rfl
  by_cases h : (fallback_state text).diagnosis_ar = []
  · refine Or.inl ⟨h, ?_, ?_⟩
    · rw [noArabicLine, List.all_eq_true]
      intro l hl
      by_contra hcon
      have har : hasArabicChar (pyStrip l) = true := by
        revert hcon
        cases hasArabicChar (pyStrip l) <;> simp
      exact fold_ar_of_arabic _ _ ⟨l, hl, har⟩ h
    · rw [hfield, if_neg (by simp [h])]
  · refine Or.inr ⟨h, ?_, ?_⟩
    · intro s hs
      rcases fold_ar_mem _ _ s hs with hmem | har
      · simp at hmem
      · exact har
    · rw [hfield, if_pos h]

/-- C2, witness: a reply that is one Arabic word yields that word as the
Arabic diagnosis, via the bucket branch of the theorem. -/
theorem claim2_witness :
    (fallback_result "سلام").diagnosis_arabic = "سلام" := by
  rcases claim2_arabic_purity "سلام" with ⟨hempty, -, -⟩ | ⟨-, -, heq⟩
  · exact absurd hempty (by decide)
  · rw [heq]
    decide

/-- C3, counterexample: the code rescales only when the confidence value
exceeds 1, not when its magnitude does: a structured confidence of −150
(magnitude above 1) is returned as −150, not −150/100, refuting the
claim's magnitude-based rule. -/
theorem claim3_counterexample :
    (analyze_medical_image decode_conf_neg
        "\x7b\"confidence_score\": -150\x7d").confidence_score = -150 ∧
    (1 : ℚ) < |(-150 : ℚ)| ∧ ¬ ((-150 : ℚ) / 100 = -150) := by
  refine ⟨?_, by norm_num, by norm_num⟩
  have hp : parse_json_response decode_conf_neg "\x7b\"confidence_score\": -150\x7d" =
      some ⟨none, none, none, some (-150), none, none⟩ := by decide
  have heq : (analyze_medical_image decode_conf_neg
      "\x7b\"confidence_score\": -150\x7d").confidence_score =
      if (-150 : ℚ) > 1 then (-150 : ℚ) / 100 else (-150 : ℚ) := by
    unfold analyze_medical_image
    rw [hp]
    rfl
  rw [heq, if_neg (by norm_num)]

/-- C3, amended: for a structured reply whose decoded confidence value is
`v`, the normalized score is `v / 100` exactly when `v > 1` (no clamping,
so 150 becomes 1.5), and `v` itself whenever `v ≤ 1` — in particular
negative values of large magnitude are NOT rescaled. -/
theorem claim3_confidence_normalization (decode : String → Option ParsedData)
    (text : String) (p : ParsedData) (v : ℚ)
    (hp : parse_json_response decode text = some p)
    (hv : p.confidence_score = some v) :
    (1 < v → (analyze_medical_image decode text).confidence_score = v / 100) ∧
    (v ≤ 1 → (analyze_medical_image decode text).confidence_score = v) := by
  have heq : (analyze_medical_image decode text).confidence_score =
      if p.confidence_score.getD 75 > 1 then p.confidence_score.getD 75 / 100
      else p.confidence_score.getD 75 := by
    unfold analyze_medical_image
    rw [hp]
    rfl
  rw [heq, hv]
  simp only [Option.getD_some]
  constructor
  · intro h
    rw [if_pos h]
  · intro h
    rw [if_neg (not_lt.mpr h)]

/-- C3, witness: a structured confidence of 150 normalizes to 150/100,
which exceeds 1 (the documented non-clamping). -/
theorem claim3_witness :
    (analyze_medical_image decode_conf_150
        "\x7b\"confidence_score\": 150\x7d").confidence_score = 150 / 100 ∧
    (1 : ℚ) < 150 / 100 := by
  constructor
  · exact (claim3_confidence_normalization decode_conf_150
      "\x7b\"confidence_score\": 150\x7d" ⟨none, none, none, some 150, none, none⟩ 150
      (by decide) rfl).1 (by norm_num)
  · norm_num

/-- C4, counterexample: on "85%confidence" the code returns the default
0.75 (its second pattern requires at least one whitespace character,
`\s+`), while the three patterns as the claim words them (`\s*`) would
match and return 85/100. -/
theorem claim4_counterexample :
    extract_confidence_score "85%confidence" = 0.75 ∧
    claimed_confidence_extractor "85%confidence" = 85 / 100 ∧
    ¬ ((0.75 : ℚ) = 85 / 100) := by
  refine ⟨?_, ?_, by norm_num⟩
  · unfold extract_confidence_score
    norm_num [show searchFrom match_confidence_pct (pyLower "85%confidence".data) = none from
        by decide,
      show searchFrom match_pct_confiden (pyLower "85%confidence".data) = none from by decide,
      show searchFrom match_score (pyLower "85%confidence".data) = none from by decide]
  · unfold claimed_confidence_extractor
    norm_num [show specSearch match_confidence_pct (pyLower "85%confidence".data) = none from
        by decide,
      show specSearch match_pct_confiden_claimed (pyLower "85%confidence".data) = some 85 from
        by decide]

/-- C4, amended: `extract_confidence_score` equals the spec-side extractor
that tries, on the lowercased text and with leftmost search, the three
patterns in priority order — `confidence[:\s]+(\d+)%`, then
`(\d+)%\s+confiden` (at least one whitespace), then `score[:\s]+(\d+)` —
dividing the captured integer by 100, with default 0.75 when none
matches. -/
theorem claim4_confidence_patterns (text : String) :
    extract_confidence_score text = spec_confidence_extractor text := by
  unfold extract_confidence_score spec_confidence_extractor
  rw [searchFrom_eq_specSearch, searchFrom_eq_specSearch, searchFrom_eq_specSearch]

/-- C5: `parse_json_response` yields a decoded object exactly when the
text decomposes around a first opening brace and a later last closing
brace and the decoder accepts exactly that span; in every other case
(no such span, or the decode fails) it yields nothing — it is a total
function and hands the decoder one span only, with no brace-balancing
repair. -/
theorem claim5_json_span (decode : String → Option ParsedData) (text : String)
    (p : ParsedData) :
    parse_json_response decode text = some p ↔
      ∃ pre mid post, text.data = pre ++ '\x7b' :: (mid ++ '\x7d' :: post) ∧
        '\x7b' ∉ pre ∧ '\x7d' ∉ post ∧
        decode (String.mk ('\x7b' :: (mid ++ ['\x7d']))) = some p := by
  unfold parse_json_response
  constructor
  · intro h
    cases hb : braceSearch text.data with
    | none =>
      rw [hb] at h
      exact Option.noConfusion h
    | some span =>
      rw [hb] at h
      obtain ⟨pre, mid, post, h1, h2, h3, h4⟩ := (braceSearch_some_iff _ _).mp hb
      exact ⟨pre, mid, post, h1, h2, h3, by rw [← h4]; exact h⟩
  · rintro ⟨pre, mid, post, h1, h2, h3, h4⟩
    rw [(braceSearch_some_iff text.data ('\x7b' :: (mid ++ ['\x7d']))).mpr
      ⟨pre, mid, post, h1, h2, h3, rfl⟩]
    exact h4

/-- C5, witness: on "a{b}c" the parser hands the decoder exactly "{b}"
and returns its verdict. -/
theorem claim5_witness :
    parse_json_response
      (fun s => if s = "\x7bb\x7d" then some ⟨none, none, none, none, none, none⟩ else none)
      "a\x7bb\x7dc" = some ⟨none, none, none, none, none, none⟩ :=
  (claim5_json_span
    (fun s => if s = "\x7bb\x7d" then some ⟨none, none, none, none, none, none⟩ else none)
    "a\x7bb\x7dc" ⟨none, none, none, none, none, none⟩).mpr
    ⟨['a'], ['b'], ['c'], by decide, by decide, by decide, by decide⟩

/-- C6, counterexample: a structured reply whose findings key holds an
explicitly empty array is passed through verbatim, so the resulting
record's findings sequence is empty, refuting the for-every-reply
non-emptiness claim. -/
theorem claim6_counterexample :
    (analyze_medical_image decode_empty_findings
        "\x7b\"findings\": []\x7d").findings = [] := by
  decide

/-- C6, amended: the findings sequence of the result is empty exactly
when the reply took the structured path and its decoded findings field is
an explicitly empty list; in every other case — findings key absent
(placeholder "Image analyzed"), fallback path with no finding lines
(placeholder "Analysis completed"), or any non-empty extraction — the
sequence is non-empty. -/
theorem claim6_findings_nonempty (decode : String → Option ParsedData) (text : String) :
    (analyze_medical_image decode text).findings = [] ↔
      ∃ p, parse_json_response decode text = some p ∧ p.findings = some [] := by
  unfold analyze_medical_image
  cases hp : parse_json_response decode text with
  | none =>
    have hne : (fallback_result text).findings ≠ [] := by
      have heq : (fallback_result text).findings =
          if (fallback_state text).findings ≠ [] then (fallback_state text).findings
          else ["Analysis completed"] := rfl
      rw [heq]
      split_ifs with h2
      · exact h2
      · simp
    simp [hne]
  | some q =>
    have heq : (structured_result q).findings = q.findings.getD ["Image analyzed"] := rfl
    rw [heq]
    cases hf : q.findings with
    | none => simp [hf]
    | some l => simp [hf]

/-- C6, witness: a decoder that always reports an empty findings list
drives the structured path to an empty findings sequence, through the
backward direction of the theorem. -/
theorem claim6_witness :
    (analyze_medical_image (fun _ => some ⟨none, none, none, none, some [], none⟩)
        "\x7bx\x7d").findings = [] :=
  (claim6_findings_nonempty (fun _ => some ⟨none, none, none, none, some [], none⟩)
      "\x7bx\x7d").mpr
    ⟨⟨none, none, none, none, some [], none⟩, by decide, rfl⟩

/-- C7: whenever the keyword gate rejects the message, the chat generator
returns the fixed bilingual refusal with `is_medical = false` and
`confidence_score = 100`, and the collaborator call count is zero. -/
theorem claim7_refusal_gate (llm : String → String)
    (decodeChat : String → Option ChatReply) (user_message : String)
    (h : is_medical_question user_message = false) :
    generate_medical_chat_response llm decodeChat user_message = (refusal_reply, 0) ∧
    refusal_reply.is_medical = false ∧ refusal_reply.confidence_score = 100 := by
  refine ⟨?_, rfl, rfl⟩
  unfold generate_medical_chat_response
  rw [h]
  rfl

/-- C7, witness: the non-medical question of the spec's test is refused
with no collaborator call, whatever the collaborator would have said. -/
theorem claim7_witness :
    generate_medical_chat_response (fun _ => "") (fun _ => none)
      "What is the weather today" = (refusal_reply, 0) ∧
    refusal_reply.is_medical = false ∧ refusal_reply.confidence_score = 100 :=
  claim7_refusal_gate (fun _ => "") (fun _ => none) "What is the weather today" (by decide)

/-- C8: because `get_record_by_id` and `delete_record` raise their 404
inside a `try` whose only handler is `except Exception` (there is no
`except HTTPException: raise` as in the other handlers of the file), an
unknown record id is reported as a 500 server error wrapping the
stringified 404, not as the client error the spec requires; a found
record still comes back normally. -/
theorem claim8_notfound_wrapped :
    get_record_by_id none =
      Except.error ⟨500, "Error fetching record: 404: Record not found"⟩ ∧
    delete_record 0 "652f8aab1234567890abcdef" =
      Except.error ⟨500, "Error deleting record: 404: Record not found"⟩ ∧
    get_record_by_id (some ⟨"652f8aab1234567890abcdef"⟩) =
      Except.ok ⟨"652f8aab1234567890abcdef"⟩ := by
  refine ⟨by decide, by decide, by decide⟩

/-- C9: any upload with a disallowed extension or a payload above the
10MB bound is rejected by `/analyze` with a 400 client error — the
extension message listing the allowed set, or the fixed size message —
and the collaborator call count is zero. -/
theorem claim9_validation_gate (decode : String → Option ParsedData)
    (reply filename : String) (size : Nat)
    (h : file_extension filename ∉ allowed_extensions ∨ 10 * 1024 * 1024 < size) :
    (analyze_image decode reply filename size).2 = 0 ∧
    ∃ d, (analyze_image decode reply filename size).1 = Except.error ⟨400, d⟩ ∧
      (file_extension filename ∉ allowed_extensions → d = invalid_type_detail) ∧
      (file_extension filename ∈ allowed_extensions → d = "File size exceeds 10MB limit") := by
  unfold analyze_image
  by_cases hext : file_extension filename ∉ allowed_extensions
  · rw [if_pos hext]
    exact ⟨rfl, invalid_type_detail, rfl, fun _ => rfl, fun hmem => absurd hmem hext⟩
  · rw [if_neg hext]
    have hsize : 10 * 1024 * 1024 < size := by
      rcases h with h1 | h2
      · exact absurd h1 hext
      · exact h2
    rw [if_pos hsize]
    exact ⟨rfl, "File size exceeds 10MB limit", rfl, fun hx => absurd hx hext, fun _ => rfl⟩

/-- C9, witness: a 12MB png upload is rejected with the size message and
zero collaborator calls. -/
theorem claim9_witness :
    (analyze_image (fun _ => none) "" "scan.png" 12582912).2 = 0 ∧
    (analyze_image (fun _ => none) "" "scan.png" 12582912).1 =
      Except.error ⟨400, "File size exceeds 10MB limit"⟩ := by
  have h := claim9_validation_gate (fun _ => none) "" "scan.png" 12582912
    (Or.inr (by norm_num))
  refine ⟨h.1, ?_⟩
  obtain ⟨d, hd, -, hsz⟩ := h.2
  rw [hd, hsz (by decide)]

/-- C10: both upload endpoints reject with the invalid-type error exactly
when the lowercased substring after the last dot of the filename (the
whole lowercased name when it has no dot) is outside the seven-element
whitelist; in particular a dotless filename is accepted exactly when the
whole lowercased name is one of the seven words. -/
theorem claim10_extension_rule (decode : String → Option ParsedData) (reply : String)
    (upload : Option String) (uploadErr : String) (save : Option String) (saveErr : String)
    (filename : String) (size : Nat) (patient_id : Option String) :
    ((analyze_image decode reply filename size).1 =
        Except.error ⟨400, invalid_type_detail⟩ ↔
      spec_extension filename ∉ allowed_extensions) ∧
    ((analyze_and_store_image decode reply upload uploadErr save saveErr filename size
          patient_id).1 =
        Except.error ⟨400, invalid_type_detail⟩ ↔
      spec_extension filename ∉ allowed_extensions) ∧
    ('.' ∉ filename.data →
      (spec_extension filename ∈ allowed_extensions ↔
        String.mk (pyLower filename.data) ∈ allowed_extensions)) := by
  rw [← file_extension_eq_spec]
  refine ⟨?_, ?_, ?_⟩
  · unfold analyze_image
    by_cases hext : file_extension filename ∉ allowed_extensions
    · rw [if_pos hext]
      simp [hext]
    · rw [if_neg hext]
      constructor
      · intro h
        exfalso
        by_cases hsz : size > 10 * 1024 * 1024
        · rw [if_pos hsz] at h
          simp only [Except.error.injEq, HTTPException.mk.injEq] at h
          exact absurd h.2 (by decide)
        · rw [if_neg hsz] at h
          exact Except.noConfusion h
      · intro h
        exact absurd h hext
  · unfold analyze_and_store_image
    by_cases hext : file_extension filename ∉ allowed_extensions
    · rw [if_pos hext]
      simp [hext]
    · rw [if_neg hext]
      constructor
      · intro h
        exfalso
        by_cases hsz : size > 10 * 1024 * 1024
        · rw [if_pos hsz] at h
          simp only [Except.error.injEq, HTTPException.mk.injEq] at h
          exact absurd h.2 (by decide)
        · rw [if_neg hsz] at h
          cases upload with
          | none =>
            simp only [Except.error.injEq, HTTPException.mk.injEq] at h
            exact absurd h.1 (by decide)
          | some url =>
            cases save with
            | none =>
              simp only [Except.error.injEq, HTTPException.mk.injEq] at h
              exact absurd h.1 (by decide)
            | some rid =>
              exact Except.noConfusion h
      · intro h
        exact absurd h hext
  · intro hdot
    rw [file_extension_eq_spec]
    unfold spec_extension
    rw [specAfterLastSep_of_not_mem '.' filename.data hdot]
